import Mathlib

/-!
Verification of the expense-tracker command-line program
(source: EXPENSE_TRACKER.py).

The program keeps two flat JSON documents: a list of expense records and a
mapping from month number (stored as text) to a budget ceiling.  Every
operation loads the relevant document, acts on the in-memory copy, and saves
it back only on success.  We embed the persisted state explicitly: each
operation takes the loaded state as an argument and returns the result
together with the state that ends up persisted (the original state whenever
the Python code returns before calling the save function).

Monetary amounts are embedded as rationals.  The Python builtin round uses
round-half-to-even; we model it exactly on rationals (binary floating point
representation error is out of scope of the embedding).  Dates are embedded
structurally as year-month-day triples; the program stores them as
"YYYY-MM-DD" text and re-parses them with strptime, which on well-formed
stored dates is the identity on the triple.
-/

/-- A calendar date as stored in the expense file (`"%Y-%m-%d"`). -/
structure Date where
  year : ℕ
  month : ℕ
  day : ℕ
deriving DecidableEq, Repr

/-- One expense record, the JSON object built in `add_expense`
(EXPENSE_TRACKER.py lines 47-53): id, date, description, amount, category. -/
structure Expense where
  id : ℤ
  date : Date
  description : String
  amount : ℚ
  category : String
deriving DecidableEq, Repr

/-- The budget document: a JSON object mapping month-number-as-text to a
ceiling, embedded as an association list with distinct keys. -/
def Budget : Type := List (String × ℚ)

/-- Python truthiness of an optional string argument (`if args.description:`):
false for an absent argument and for the empty string. -/
def strTruthy : Option String → Bool
  | none => false
  | some s => s != ""

/-- Python truthiness of an optional integer argument (`if args.month:`):
false for an absent argument and for zero. -/
def optNatTruthy : Option ℕ → Bool
  | none => false
  | some n => n != 0

/-- Exact floor on rationals. -/
def ratFloor (q : ℚ) : ℤ := Int.fdiv q.num q.den

/-- Round to the nearest integer, ties to even: the semantics of the Python
builtin `round` used at lines 51, 73 and 150. -/
def roundHalfEven (q : ℚ) : ℤ :=
  let f := ratFloor q
  let r := q - f
  if r < 1/2 then f
  else if 1/2 < r then f + 1
  else if f % 2 = 0 then f else f + 1

/-- `round(x, 2)`: round to two decimal places. -/
def round2 (q : ℚ) : ℚ := (roundHalfEven (q * 100) : ℚ) / 100

/-- Two-decimal display of a monetary value, the `f"{x:.2f}"` formatting used
in the budget warnings (lines 136 and 143). -/
def fmt2 (q : ℚ) : String :=
  let c : ℤ := roundHalfEven (q * 100)
  let m : ℕ := c.natAbs
  let frac := m % 100
  (if c < 0 then "-" else "") ++ toString (m / 100) ++ "." ++
    (if frac < 10 then "0" ++ toString frac else toString frac)

/-- `strftime("%B")`: the display name of a month number. -/
def monthName : ℕ → String
  | 1 => "January"
  | 2 => "February"
  | 3 => "March"
  | 4 => "April"
  | 5 => "May"
  | 6 => "June"
  | 7 => "July"
  | 8 => "August"
  | 9 => "September"
  | 10 => "October"
  | 11 => "November"
  | 12 => "December"
  | _ => ""

/-- Dictionary lookup `budget[str(month)]` guarded by `str(month) in budget`. -/
def dictLookup (b : Budget) (k : String) : Option ℚ :=
  List.lookup k b

/-- Dictionary assignment `budget[str(month)] = v`: replace the binding if the
key is present, otherwise append it. -/
def dictInsert : Budget → String → ℚ → Budget
  | [], k, v => [(k, v)]
  | (k0, v0) :: rest, k, v =>
      if k0 = k then (k, v) :: rest else (k0, v0) :: dictInsert rest k v

/-- Outcome of one store or ledger operation, per the error kinds of the
specification: success, `InvalidAmount`, or `NotFound`. -/
inductive OpResult where
  | ok
  | invalidAmount
  | notFound
deriving DecidableEq, Repr

/-- `generate_new_id` (lines 31-34): 1 on an empty store, otherwise the
maximum stored id plus one (`max(e['id'] for e in expenses) + 1`). -/
def generate_new_id (expenses : List Expense) : ℤ :=
  match expenses with
  | [] => 1
  | e :: rest => rest.foldl (fun acc x => max acc x.id) e.id + 1

/-- `add_expense` (lines 42-55): reject a non-positive amount before any
mutation; otherwise append a record with the next id, the current date, the
amount rounded to two decimals, and the category defaulted to the empty
string, and persist the extended list. -/
def add_expense (st : List Expense) (description : String) (amount : ℚ)
    (category : Option String) (today : Date) : OpResult × List Expense :=
  if amount ≤ 0 then (.invalidAmount, st)
  else
    let e : Expense :=
      { id := generate_new_id st
        date := today
        description := description
        amount := round2 amount
        category := if strTruthy category then category.getD "" else "" }
    (.ok, st ++ [e])

/-- The loop body of `update_expense` (lines 65-79): scan for the first record
with the given id; on a match apply the truthy description, then validate the
amount (returning `InvalidAmount` without saving when it is non-positive),
then apply the truthy category, and stop.  The returned list is the one that
would be saved on success. -/
def update_go (id : ℤ) (desc : Option String) (amt : Option ℚ)
    (cat : Option String) : List Expense → OpResult × List Expense
  | [] => (.notFound, [])
  | e :: rest =>
    if e.id = id then
      let e1 := if strTruthy desc then { e with description := desc.getD "" } else e
      match amt with
      | some a =>
        if a ≤ 0 then (.invalidAmount, e :: rest)
        else
          let e2 := { e1 with amount := round2 a }
          let e3 := if strTruthy cat then { e2 with category := cat.getD "" } else e2
          (.ok, e3 :: rest)
      | none =>
        let e3 := if strTruthy cat then { e1 with category := cat.getD "" } else e1
        (.ok, e3 :: rest)
    else
      let p := update_go id desc amt cat rest
      (p.1, e :: p.2)

/-- `update_expense` (lines 62-81): the persisted state is the updated list
exactly when the loop reached its save call; on `InvalidAmount` or `NotFound`
the function returns before saving, so the persisted state is unchanged. -/
def update_expense (st : List Expense) (id : ℤ) (desc : Option String)
    (amt : Option ℚ) (cat : Option String) : OpResult × List Expense :=
  let p := update_go id desc amt cat st
  match p.1 with
  | .ok => (.ok, p.2)
  | r => (r, st)

/-- `delete_expense` (lines 83-91): filter out the record with the given id;
persist only when the length changed, else report `NotFound`. -/
def delete_expense (st : List Expense) (id : ℤ) : OpResult × List Expense :=
  let st1 := st.filter (fun e => e.id ≠ id)
  if st1.length ≠ st.length then (.ok, st1) else (.notFound, st)

/-- The category restriction shared by `list_expenses` (lines 95-96) and
`export_csv` (lines 157-158): applied only when the optional argument is
truthy, and keeping records whose category equals it exactly. -/
def filterByCat (st : List Expense) (category : Option String) : List Expense :=
  if strTruthy category then st.filter (fun e => e.category = category.getD "") else st

/-- The observable outcome of `list_expenses`: the distinct no-match report or
the table rows. -/
inductive ListResult where
  | empty
  | rows (es : List Expense)
deriving DecidableEq, Repr

/-- `list_expenses` (lines 93-104): apply the category restriction, report
"No expenses found." on an empty result, otherwise print the rows in store
order. -/
def list_expenses (st : List Expense) (category : Option String) : ListResult :=
  let es := filterByCat st category
  if es.isEmpty then .empty else .rows es

/-- The rows of a list outcome (none for the no-match report). -/
def ListResult.toRows : ListResult → List Expense
  | .empty => []
  | .rows es => es

/-- The observable outcome of `export_csv`: either the no-data notice with no
file written, or a written file holding the header row and one row per
record. -/
inductive CsvResult where
  | noData
  | file (header : List String) (rows : List Expense)
deriving DecidableEq, Repr

/-- `export_csv` (lines 154-168): apply the same category restriction as the
list operation; when nothing matches print "No expenses to export." and never
open the output file; otherwise write the fixed header followed by the
filtered records in store order. -/
def export_csv (st : List Expense) (category : Option String) : CsvResult :=
  let es := filterByCat st category
  if es.isEmpty then .noData
  else .file ["id", "date", "description", "amount", "category"] es

/-- The content of the output file after `export_csv`, given its prior
content (`none` when the file did not exist): the open-for-write happens only
in the non-empty branch, so an empty filtered set leaves the file alone. -/
def export_csv_fs (prev : Option CsvResult) (st : List Expense)
    (category : Option String) : Option CsvResult :=
  match export_csv st category with
  | .noData => prev
  | r => some r

/-- `summary_expenses` (lines 106-121), reduced to the computed total: with a
truthy month argument, sum the amounts of the records whose stored date has
that month and the current year; otherwise sum every amount. -/
def summary_expenses (st : List Expense) (month : Option ℕ) (today : Date) : ℚ :=
  if optNatTruthy month then
    (((st.filter (fun e => e.date.month == month.getD 0 && e.date.year == today.year)).map
      (fun e => e.amount)).sum)
  else ((st.map (fun e => e.amount)).sum)

/-- The month total recomputed inside `warn_budget_if_needed` (lines 128-133):
the sum of the amounts of the records sharing the month and year of the given
date. -/
def monthTotal (all_expenses : List Expense) (m : ℕ) (y : ℕ) : ℚ :=
  ((all_expenses.filter (fun e => e.date.month == m && e.date.year == y)).map
    (fun e => e.amount)).sum

/-- `warn_budget_if_needed` (lines 123-136), the post-add check: look up the
ceiling for the month of the new expense; when one exists and the recomputed
month total strictly exceeds it, print the warning naming the ceiling and the
month. -/
def warn_budget_if_needed (dt : Date) (budget : Budget)
    (all_expenses : List Expense) : Option String :=
  match dictLookup budget (toString dt.month) with
  | none => none
  | some budget_amt =>
    let total := monthTotal all_expenses dt.month dt.year
    if budget_amt < total then
      some ("Warning: You have exceeded your budget ($" ++ fmt2 budget_amt ++
        ") for " ++ monthName dt.month ++ ".")
    else none

/-- `show_budget_warning_if_exceeded` (lines 138-143), the summary-time check:
look up the ceiling for the month; when one exists and the given total
strictly exceeds it, print the warning naming the ceiling. -/
def show_budget_warning_if_exceeded (month : ℕ) (month_total : ℚ)
    (budget : Budget) : Option String :=
  match dictLookup budget (toString month) with
  | none => none
  | some budget_amt =>
    if budget_amt < month_total then
      some ("Warning: Total expenses exceed the set budget ($" ++
        fmt2 budget_amt ++ ") for this month.")
    else none

/-- `set_budget` (lines 145-152): reject a non-positive amount before loading
or writing the budget document; otherwise store the rounded ceiling under the
month key and persist. -/
def set_budget (budget : Budget) (month : ℕ) (amount : ℚ) : OpResult × Budget :=
  if amount ≤ 0 then (.invalidAmount, budget)
  else (.ok, dictInsert budget (toString month) (round2 amount))

/-- A mutating store command, for reasoning about reachable store states:
an add (with its input data and the current date) or a delete. -/
inductive Op where
  | add (description : String) (amount : ℚ) (category : Option String) (today : Date)
  | del (id : ℤ)

/-- The persisted store after one command. -/
def applyOp (st : List Expense) : Op → List Expense
  | .add d a c t => (add_expense st d a c t).2
  | .del i => (delete_expense st i).2

/-- The persisted store after a sequence of commands, starting from the empty
store (the absent expense file). -/
def runOps (ops : List Op) : List Expense :=
  ops.foldl applyOp []


/-- Helper: the two-decimal display of the ceiling 100. -/
theorem fmt2_100 : fmt2 100 = "100.00" := by
  have h : roundHalfEven (100 * 100) = 10000 := by norm_num [roundHalfEven, ratFloor]
  simp only [fmt2, h]
  decide

/-- Claim C1, amended.  For every month with a configured ceiling and every
computed monthly total, the post-add check and the summary-time check warn
exactly when the total strictly exceeds the ceiling, and each warning contains
the formatted ceiling value; the post-add warning also contains the display
name of the month, while the summary-time warning says "this month" instead,
so the two texts are not identical; when the total does not strictly exceed
the ceiling, or no ceiling is set for that month, neither emits anything. -/
theorem budget_check_equiv_amended (budget : Budget) (dt : Date)
    (exps : List Expense) (t : ℚ) :
    (∀ c : ℚ, dictLookup budget (toString dt.month) = some c →
      ((warn_budget_if_needed dt budget exps).isSome ↔ c < monthTotal exps dt.month dt.year) ∧
      ((show_budget_warning_if_exceeded dt.month t budget).isSome ↔ c < t) ∧
      (c < monthTotal exps dt.month dt.year →
        warn_budget_if_needed dt budget exps =
          some ("Warning: You have exceeded your budget ($" ++ fmt2 c ++ ") for " ++
            monthName dt.month ++ ".")) ∧
      (c < t →
        show_budget_warning_if_exceeded dt.month t budget =
          some ("Warning: Total expenses exceed the set budget ($" ++ fmt2 c ++
            ") for this month."))) ∧
    (dictLookup budget (toString dt.month) = none →
      warn_budget_if_needed dt budget exps = none ∧
      show_budget_warning_if_exceeded dt.month t budget = none) := by
  constructor
  · intro c hc
    refine ⟨?_, ?_, ?_, ?_⟩
    · simp only [warn_budget_if_needed, hc]
      by_cases h : c < monthTotal exps dt.month dt.year <;> simp [h]
    · simp only [show_budget_warning_if_exceeded, hc]
      by_cases h : c < t <;> simp [h]
    · intro h
      simp only [warn_budget_if_needed, hc, if_pos h]
    · intro h
      simp only [show_budget_warning_if_exceeded, hc, if_pos h]
  · intro hc
    constructor
    · simp only [warn_budget_if_needed, hc]
    · simp only [show_budget_warning_if_exceeded, hc]

/-- Witness for the C1 theorem at a concrete ledger, date and store. -/
theorem budget_check_equiv_amended_witness :
    ((warn_budget_if_needed ⟨2026,6,15⟩ [("6",100)]
        [⟨1, ⟨2026,6,15⟩, "x", 120, ""⟩]).isSome ↔
      (100:ℚ) < monthTotal [⟨1, ⟨2026,6,15⟩, "x", 120, ""⟩] 6 2026) ∧
    ((show_budget_warning_if_exceeded 6 120 [("6",100)]).isSome ↔ (100:ℚ) < 120) := by
  have h := budget_check_equiv_amended [("6",100)] ⟨2026,6,15⟩
    [⟨1, ⟨2026,6,15⟩, "x", 120, ""⟩] 120
  exact ⟨(h.1 100 (by decide)).1, (h.1 100 (by decide)).2.1⟩

/-- Claim C1, counterexample.  With a ceiling of 100 for June and a June
total of 120, both checks warn, but the two warning texts differ, and the
summary-time text does not contain the month display name. -/
theorem warn_texts_differ :
    warn_budget_if_needed ⟨2026,6,15⟩ [("6",100)] [⟨1, ⟨2026,6,15⟩, "x", 120, ""⟩] =
      some "Warning: You have exceeded your budget ($100.00) for June." ∧
    show_budget_warning_if_exceeded 6 120 [("6",100)] =
      some "Warning: Total expenses exceed the set budget ($100.00) for this month." ∧
    ("Warning: You have exceeded your budget ($100.00) for June." ≠
      "Warning: Total expenses exceed the set budget ($100.00) for this month.") := by
  have ht : monthTotal [⟨1, ⟨2026,6,15⟩, "x", 120, ""⟩] 6 2026 = 120 := by
    norm_num [monthTotal]
  have hlt : (100:ℚ) < 120 := by norm_num
  refine ⟨?_, ?_, by decide⟩
  · show (match dictLookup [("6",100)] (toString (6:ℕ)) with
      | none => none
      | some budget_amt =>
        if budget_amt < monthTotal [⟨1, ⟨2026,6,15⟩, "x", 120, ""⟩] 6 2026 then
          some ("Warning: You have exceeded your budget ($" ++ fmt2 budget_amt ++
            ") for " ++ monthName 6 ++ ".")
        else none) = _
    have hl : dictLookup [("6",100)] (toString (6:ℕ)) = some 100 := by decide
    rw [hl, ht]
    show (if (100:ℚ) < 120 then
        some ("Warning: You have exceeded your budget ($" ++ fmt2 100 ++
          ") for " ++ monthName 6 ++ ".")
      else none) = _
    rw [if_pos hlt, fmt2_100]
    rfl
  · show (match dictLookup [("6",100)] (toString (6:ℕ)) with
      | none => none
      | some budget_amt =>
        if budget_amt < (120:ℚ) then
          some ("Warning: Total expenses exceed the set budget ($" ++ fmt2 budget_amt ++
            ") for this month.")
        else none) = _
    have hl : dictLookup [("6",100)] (toString (6:ℕ)) = some 100 := by decide
    rw [hl]
    show (if (100:ℚ) < 120 then
        some ("Warning: Total expenses exceed the set budget ($" ++ fmt2 100 ++
          ") for this month.")
      else none) = _
    rw [if_pos hlt, fmt2_100]
    rfl

/-- Helper: when no stored record has the requested id, the update loop runs
off the end of the list, reporting `NotFound` and building no change. -/
theorem update_go_notFound (id : ℤ) (desc : Option String) (amt : Option ℚ)
    (cat : Option String) :
    ∀ st : List Expense, id ∉ st.map (fun e => e.id) →
      update_go id desc amt cat st = (.notFound, st) := by
  intro st
  induction st with
  | nil => intro _; rfl
  | cons e rest ih =>
    intro h
    simp only [List.map_cons, List.mem_cons] at h
    push_neg at h
    have he : ¬ e.id = id := fun hq => h.1 hq.symm
    simp only [update_go, if_neg he, ih h.2]

/-- Helper: when a record with the requested id is present and the provided
amount is non-positive, the update loop stops at the validation with
`InvalidAmount`, and the list it would have saved is the original one. -/
theorem update_go_invalid (id : ℤ) (desc : Option String) (cat : Option String)
    (a : ℚ) (ha : a ≤ 0) :
    ∀ st : List Expense, id ∈ st.map (fun e => e.id) →
      update_go id desc (some a) cat st = (.invalidAmount, st) := by
  intro st
  induction st with
  | nil => intro h; simp at h
  | cons e rest ih =>
    intro h
    by_cases he : e.id = id
    · simp only [update_go, if_pos he, if_pos ha]
    · have hr : id ∈ rest.map (fun e => e.id) := by
        rcases (by simpa using h) with h1 | h1
        · exact absurd h1.symm he
        · simpa using h1
      simp only [update_go, if_neg he, ih hr]

/-- Helper: the update loop keeps the length and order of the list, never
touches the id or date of any record, and leaves every record whose id
differs from the requested one exactly as it was. -/
theorem update_go_frame (id : ℤ) (desc : Option String) (amt : Option ℚ)
    (cat : Option String) :
    ∀ st : List Expense,
      List.Forall₂ (fun a b => b.id = a.id ∧ b.date = a.date ∧ (a.id ≠ id → b = a))
        st (update_go id desc amt cat st).2 := by
  intro st
  induction st with
  | nil => exact List.Forall₂.nil
  | cons e rest ih =>
    by_cases he : e.id = id
    · cases amt with
      | some a =>
        by_cases ha : a ≤ 0
        · simp only [update_go, if_pos he, if_pos ha]
          refine List.Forall₂.cons ⟨rfl, rfl, fun _ => rfl⟩ ?_
          exact (List.forall₂_same).mpr (fun x _ => ⟨rfl, rfl, fun _ => rfl⟩)
        · simp only [update_go, if_pos he, if_neg ha]
          refine List.Forall₂.cons ?_ ?_
          · constructor
            · by_cases hd : strTruthy desc <;> by_cases hc : strTruthy cat <;>
                simp [hd, hc]
            · constructor
              · by_cases hd : strTruthy desc <;> by_cases hc : strTruthy cat <;>
                  simp [hd, hc]
              · intro hne; exact absurd he hne
          · exact (List.forall₂_same).mpr (fun x _ => ⟨rfl, rfl, fun _ => rfl⟩)
      | none =>
        simp only [update_go, if_pos he]
        refine List.Forall₂.cons ?_ ?_
        · constructor
          · by_cases hd : strTruthy desc <;> by_cases hc : strTruthy cat <;>
              simp [hd, hc]
          · constructor
            · by_cases hd : strTruthy desc <;> by_cases hc : strTruthy cat <;>
                simp [hd, hc]
            · intro hne; exact absurd he hne
        · exact (List.forall₂_same).mpr (fun x _ => ⟨rfl, rfl, fun _ => rfl⟩)
    · simp only [update_go, if_neg he]
      exact List.Forall₂.cons ⟨rfl, rfl, fun _ => rfl⟩ ih

/-- Claim C2.  If the store contains a record with the given id and Update is
called with a non-positive amount, the operation fails with `InvalidAmount`
and the persisted collection is left entirely unchanged, including any
description or category values also provided in that call. -/
theorem update_invalid_amount_atomic (st : List Expense) (id : ℤ)
    (desc cat : Option String) (a : ℚ)
    (hmem : id ∈ st.map (fun e => e.id)) (ha : a ≤ 0) :
    update_expense st id desc (some a) cat = (.invalidAmount, st) := by
  simp only [update_expense, update_go_invalid id desc cat a ha st hmem]

/-- Witness for the C2 theorem: an update providing a new description, a new
category and the amount -5 against a store holding the id. -/
theorem update_invalid_amount_atomic_witness :
    update_expense [⟨1, ⟨2026,6,15⟩, "x", 120, ""⟩] 1 (some "new") (some (-5)) (some "food") =
      (.invalidAmount, [⟨1, ⟨2026,6,15⟩, "x", 120, ""⟩]) :=
  update_invalid_amount_atomic _ 1 _ _ (-5) (by decide) (by decide)

/-- Claim C6.  Update and Delete with an id matching no record both report
`NotFound` and leave the persisted collection unchanged. -/
theorem missing_id_not_found (st : List Expense) (id : ℤ) (desc : Option String)
    (amt : Option ℚ) (cat : Option String) (h : id ∉ st.map (fun e => e.id)) :
    update_expense st id desc amt cat = (.notFound, st) ∧
    delete_expense st id = (.notFound, st) := by
  constructor
  · simp only [update_expense, update_go_notFound id desc amt cat st h]
  · have hf : st.filter (fun e => e.id ≠ id) = st := by
      apply List.filter_eq_self.mpr
      intro e he
      have : e.id ≠ id := fun hq => h (List.mem_map.mpr ⟨e, he, hq⟩)
      simpa using this
    unfold delete_expense
    rw [hf]
    simp

/-- Witness for the C6 theorem at a store holding only id 1, probed with
id 2. -/
theorem missing_id_not_found_witness :
    update_expense [⟨1, ⟨2026,6,15⟩, "x", 120, ""⟩] 2 none none none =
      (.notFound, [⟨1, ⟨2026,6,15⟩, "x", 120, ""⟩]) ∧
    delete_expense [⟨1, ⟨2026,6,15⟩, "x", 120, ""⟩] 2 =
      (.notFound, [⟨1, ⟨2026,6,15⟩, "x", 120, ""⟩]) :=
  missing_id_not_found _ 2 none none none (by decide)

/-- Claim C9.  A successful Update keeps the store length and order, never
changes the id or date field of any record, and leaves every record whose id
differs from the requested one exactly equal to its prior value. -/
theorem update_frame (st : List Expense) (id : ℤ) (desc : Option String)
    (amt : Option ℚ) (cat : Option String)
    (h : (update_expense st id desc amt cat).1 = .ok) :
    (update_expense st id desc amt cat).2.length = st.length ∧
    List.Forall₂ (fun a b => b.id = a.id ∧ b.date = a.date ∧ (a.id ≠ id → b = a))
      st (update_expense st id desc amt cat).2 := by
  have hf := update_go_frame id desc amt cat st
  cases hgo : (update_go id desc amt cat st).1 with
  | ok =>
    have he : update_expense st id desc amt cat =
        (.ok, (update_go id desc amt cat st).2) := by
      simp only [update_expense, hgo]
    rw [he]
    exact ⟨hf.length_eq.symm, hf⟩
  | invalidAmount => simp [update_expense, hgo] at h
  | notFound => simp [update_expense, hgo] at h

/-- Witness for the C9 theorem: a successful description-only update of the
single stored record. -/
theorem update_frame_witness :
    (update_expense [⟨1, ⟨2026,6,15⟩, "x", 120, ""⟩] 1 (some "y") none none).2.length =
      ([⟨1, ⟨2026,6,15⟩, "x", 120, ""⟩] : List Expense).length ∧
    List.Forall₂ (fun a b => b.id = a.id ∧ b.date = a.date ∧ (a.id ≠ (1:ℤ) → b = a))
      [⟨1, ⟨2026,6,15⟩, "x", 120, ""⟩]
      (update_expense [⟨1, ⟨2026,6,15⟩, "x", 120, ""⟩] 1 (some "y") none none).2 :=
  update_frame _ 1 (some "y") none none (by decide)

/-- Claim C10.  Passing the empty string as the description or category
argument of Update is indistinguishable from not passing the argument at all,
so an update can never clear those fields back to the empty string. -/
theorem empty_string_update_noop (st : List Expense) (id : ℤ) (amt : Option ℚ) :
    update_expense st id (some "") amt (some "") = update_expense st id none amt none := by
  have hgo : ∀ st : List Expense,
      update_go id (some "") amt (some "") st = update_go id none amt none st := by
    intro st
    induction st with
    | nil => rfl
    | cons e rest ih =>
      by_cases he : e.id = id
      · cases amt with
        | some a =>
          by_cases ha : a ≤ 0 <;> simp [update_go, if_pos he, ha, strTruthy]
        | none => simp [update_go, if_pos he, strTruthy]
      · simp only [update_go, if_neg he, ih]
  simp only [update_expense, hgo st]

/-- Claim C5.  For every non-positive amount, Add, Update (with the amount
provided and the id present) and SetBudget fail with `InvalidAmount` and
leave their persisted state unchanged. -/
theorem nonpositive_amount_rejected (a : ℚ) (ha : a ≤ 0) :
    (∀ (st : List Expense) (d : String) (c : Option String) (t : Date),
      add_expense st d a c t = (.invalidAmount, st)) ∧
    (∀ (st : List Expense) (id : ℤ) (d c : Option String),
      id ∈ st.map (fun e => e.id) →
      update_expense st id d (some a) c = (.invalidAmount, st)) ∧
    (∀ (b : Budget) (m : ℕ), set_budget b m a = (.invalidAmount, b)) := by
  refine ⟨?_, ?_, ?_⟩
  · intro st d c t
    simp [add_expense, if_pos ha]
  · intro st id d c hmem
    simp only [update_expense, update_go_invalid id d c a ha st hmem]
  · intro b m
    simp [set_budget, if_pos ha]

/-- Witness for the C5 theorem at amount 0 against concrete stores. -/
theorem nonpositive_amount_rejected_witness :
    add_expense [] "coffee" 0 none ⟨2026,6,1⟩ = (.invalidAmount, []) ∧
    update_expense [⟨1, ⟨2026,6,15⟩, "x", 120, ""⟩] 1 none (some 0) none =
      (.invalidAmount, [⟨1, ⟨2026,6,15⟩, "x", 120, ""⟩]) ∧
    set_budget [] 6 0 = (.invalidAmount, []) := by
  have h := nonpositive_amount_rejected 0 (by decide)
  exact ⟨h.1 [] "coffee" none ⟨2026,6,1⟩,
    h.2.1 [⟨1, ⟨2026,6,15⟩, "x", 120, ""⟩] 1 none none (by decide),
    h.2.2 [] 6⟩

/-- Helper: folding max over a list never goes below the seed. -/
theorem le_foldl_max (l : List Expense) (acc : ℤ) :
    acc ≤ l.foldl (fun a x => max a x.id) acc := by
  induction l generalizing acc with
  | nil => exact le_refl _
  | cons x xs ih =>
    exact le_trans (le_max_left acc x.id) (ih (max acc x.id))

/-- Helper: folding max over a list dominates the id of every member. -/
theorem mem_le_foldl_max (l : List Expense) (acc : ℤ) (e : Expense) (he : e ∈ l) :
    e.id ≤ l.foldl (fun a x => max a x.id) acc := by
  induction l generalizing acc with
  | nil => simp at he
  | cons x xs ih =>
    rcases List.mem_cons.mp he with h1 | h1
    · subst h1
      exact le_trans (le_max_right acc e.id) (le_foldl_max xs (max acc e.id))
    · exact ih (max acc x.id) h1

/-- Helper: the folded maximum is the seed or the id of some member. -/
theorem foldl_max_mem (l : List Expense) (acc : ℤ) :
    l.foldl (fun a x => max a x.id) acc = acc ∨
    ∃ e ∈ l, l.foldl (fun a x => max a x.id) acc = e.id := by
  induction l generalizing acc with
  | nil => exact Or.inl rfl
  | cons x xs ih =>
    rcases ih (max acc x.id) with h | ⟨e, he, hfe⟩
    · rcases max_choice acc x.id with hm | hm
      · exact Or.inl (by simpa [hm] using h)
      · exact Or.inr ⟨x, List.mem_cons_self x xs, by simpa [hm] using h⟩
    · exact Or.inr ⟨e, List.mem_cons_of_mem x he, hfe⟩

/-- Helper: the generated id is strictly greater than every stored id. -/
theorem generate_new_id_gt (st : List Expense) (e : Expense) (he : e ∈ st) :
    e.id < generate_new_id st := by
  cases st with
  | nil => simp at he
  | cons a rest =>
    have hle : e.id ≤ rest.foldl (fun acc x => max acc x.id) a.id := by
      rcases List.mem_cons.mp he with h1 | h1
      · subst h1; exact le_foldl_max rest e.id
      · exact mem_le_foldl_max rest a.id e h1
    calc e.id ≤ rest.foldl (fun acc x => max acc x.id) a.id := hle
      _ < rest.foldl (fun acc x => max acc x.id) a.id + 1 := lt_add_one _
      _ = generate_new_id (a :: rest) := rfl

/-- Helper: on a non-empty store the generated id is exactly the maximum
stored id plus one. -/
theorem generate_new_id_max (st : List Expense) (h : st ≠ []) :
    (generate_new_id st - 1) ∈ st.map (fun e => e.id) ∧
    ∀ e ∈ st, e.id ≤ generate_new_id st - 1 := by
  cases st with
  | nil => exact absurd rfl h
  | cons a rest =>
    constructor
    · have hm : rest.foldl (fun acc x => max acc x.id) a.id = a.id ∨
          ∃ e ∈ rest, rest.foldl (fun acc x => max acc x.id) a.id = e.id :=
        foldl_max_mem rest a.id
      have hgen : generate_new_id (a :: rest) - 1 =
          rest.foldl (fun acc x => max acc x.id) a.id := by
        simp [generate_new_id]
      rcases hm with h1 | ⟨e, he, h1⟩
      · rw [hgen, h1]
        exact List.mem_map.mpr ⟨a, List.mem_cons_self a rest, rfl⟩
      · rw [hgen, h1]
        exact List.mem_map.mpr ⟨e, List.mem_cons_of_mem a he, rfl⟩
    · intro e he
      have := generate_new_id_gt (a :: rest) e he
      omega

/-- Helper: one add or delete preserves strict increase of the id column. -/
theorem applyOp_sorted (st : List Expense) (op : Op)
    (h : (st.map (fun e => e.id)).Pairwise (fun a b => a < b)) :
    ((applyOp st op).map (fun e => e.id)).Pairwise (fun a b => a < b) := by
  cases op with
  | add d a c t =>
    show (((add_expense st d a c t).2).map (fun e => e.id)).Pairwise _
    unfold add_expense
    by_cases ha : a ≤ 0
    · simpa [if_pos ha] using h
    · rw [if_neg ha]
      simp only [List.map_append, List.map_cons, List.map_nil]
      rw [List.pairwise_append]
      refine ⟨h, List.pairwise_singleton _ _, ?_⟩
      intro x hx y hy
      rcases List.mem_map.mp hx with ⟨e, he, hxe⟩
      have hy1 : y = generate_new_id st := by simpa using hy
      rw [← hxe, hy1]
      exact generate_new_id_gt st e he
  | del i =>
    show (((delete_expense st i).2).map (fun e => e.id)).Pairwise _
    unfold delete_expense
    have hsub : ((st.filter (fun e => e.id ≠ i)).map (fun e => e.id)).Sublist
        (st.map (fun e => e.id)) :=
      (List.filter_sublist st).map (fun e => e.id)
    by_cases hl : (st.filter (fun e => e.id ≠ i)).length ≠ st.length
    · rw [if_pos hl]
      exact h.sublist hsub
    · rw [if_neg hl]
      exact h

/-- Helper: a sequence of adds and deletes preserves strict increase of the
id column. -/
theorem foldl_ops_sorted (ops : List Op) :
    ∀ st : List Expense, (st.map (fun e => e.id)).Pairwise (fun a b => a < b) →
      ((ops.foldl applyOp st).map (fun e => e.id)).Pairwise (fun a b => a < b) := by
  induction ops with
  | nil => intro st h; simpa using h
  | cons op rest ih =>
    intro st h
    exact ih (applyOp st op) (applyOp_sorted st op h)

/-- Helper: every store reachable from the empty store by adds and deletes
has a strictly increasing, hence duplicate-free, id column. -/
theorem runOps_sorted (ops : List Op) :
    ((runOps ops).map (fun e => e.id)).Pairwise (fun a b => a < b) :=
  foldl_ops_sorted ops [] (by simp)

/-- Claim C3, amended.  Add assigns identifier (max existing id) + 1, or 1 on
an empty store; the assigned identifier strictly exceeds every surviving
identifier at assignment time, and across all sequences of adds and deletes
the id column stays strictly increasing, so identifiers are unique within the
store; but an identifier freed by a delete can be reissued when it exceeds
every survivor: it is guaranteed fresh only while some surviving identifier
is at least as large. -/
theorem id_generation_amended :
    generate_new_id [] = 1 ∧
    (∀ st : List Expense, st ≠ [] →
      (generate_new_id st - 1) ∈ st.map (fun e => e.id) ∧
      ∀ e ∈ st, e.id ≤ generate_new_id st - 1) ∧
    (∀ st : List Expense, ∀ e ∈ st, e.id < generate_new_id st) ∧
    (∀ ops : List Op, ((runOps ops).map (fun e => e.id)).Pairwise (fun a b => a < b)) ∧
    (∀ (st : List Expense) (d : ℤ),
      (∃ e ∈ (delete_expense st d).2, d ≤ e.id) →
      generate_new_id (delete_expense st d).2 ≠ d) := by
  refine ⟨rfl, generate_new_id_max, generate_new_id_gt, runOps_sorted, ?_⟩
  rintro st d ⟨e, he, hde⟩
  have hgt : e.id < generate_new_id (delete_expense st d).2 :=
    generate_new_id_gt _ e he
  omega

/-- Witness for the C3 theorem at concrete stores. -/
theorem id_generation_amended_witness :
    ((generate_new_id [⟨1, ⟨2026,6,15⟩, "x", 120, ""⟩] - 1) ∈
      ([⟨1, ⟨2026,6,15⟩, "x", 120, ""⟩] : List Expense).map (fun e => e.id)) ∧
    ((1:ℤ) < generate_new_id [⟨1, ⟨2026,6,15⟩, "x", 120, ""⟩]) ∧
    generate_new_id
      (delete_expense [⟨1, ⟨2026,6,15⟩, "x", 120, ""⟩, ⟨2, ⟨2026,6,15⟩, "y", 50, ""⟩] 1).2 ≠ 1 := by
  have h := id_generation_amended
  exact ⟨(h.2.1 [⟨1, ⟨2026,6,15⟩, "x", 120, ""⟩] (by decide)).1,
    h.2.2.1 [⟨1, ⟨2026,6,15⟩, "x", 120, ""⟩] ⟨1, ⟨2026,6,15⟩, "x", 120, ""⟩ (by decide),
    h.2.2.2.2 [⟨1, ⟨2026,6,15⟩, "x", 120, ""⟩, ⟨2, ⟨2026,6,15⟩, "y", 50, ""⟩] 1
      ⟨⟨2, ⟨2026,6,15⟩, "y", 50, ""⟩, by decide, by decide⟩⟩

/-- Claim C3, counterexample.  Adding to an empty store assigns id 1;
deleting id 1 and adding again assigns id 1 a second time, so an identifier
freed by a delete is reissued. -/
theorem deleted_id_reissued :
    ((runOps [Op.add "a" 5 none ⟨2026,6,1⟩]).map (fun e => e.id) = [1]) ∧
    (runOps [Op.add "a" 5 none ⟨2026,6,1⟩, Op.del 1] = []) ∧
    ((runOps [Op.add "a" 5 none ⟨2026,6,1⟩, Op.del 1,
        Op.add "b" 7 none ⟨2026,6,1⟩]).map (fun e => e.id) = [1]) := by
  refine ⟨by decide, by decide, by decide⟩

/-- Claim C4.  Summary with a month between 1 and 12 returns the sum of the
amounts of exactly those records whose date has that month and the current
calendar year; Summary with no month returns the sum of the amounts of all
records, with no other filtering. -/
theorem summary_sums (exps : List Expense) (m : ℕ) (today : Date)
    (h1 : 1 ≤ m) (h2 : m ≤ 12) :
    summary_expenses exps (some m) today =
      ((exps.filter (fun e => e.date.month = m ∧ e.date.year = today.year)).map
        (fun e => e.amount)).sum ∧
    summary_expenses exps none today = (exps.map (fun e => e.amount)).sum := by
  constructor
  · have ht : optNatTruthy (some m) = true := by
      simp only [optNatTruthy, ne_eq, bne_iff_ne]
      omega
    simp only [summary_expenses, ht, if_true, Option.getD_some]
    apply congrArg List.sum
    apply congrArg (List.map (fun (e : Expense) => e.amount))
    apply List.filter_congr
    intro e _
    by_cases hm : e.date.month = m <;> by_cases hy : e.date.year = today.year <;>
      simp [hm, hy]
  · rfl

/-- Witness for the C4 theorem at a concrete store and month 6. -/
theorem summary_sums_witness :
    summary_expenses [⟨1, ⟨2026,6,15⟩, "x", 120, ""⟩] (some 6) ⟨2026,6,15⟩ =
      ((([⟨1, ⟨2026,6,15⟩, "x", 120, ""⟩] : List Expense).filter
        (fun e => e.date.month = 6 ∧ e.date.year = (⟨2026,6,15⟩ : Date).year)).map
        (fun e => e.amount)).sum ∧
    summary_expenses [⟨1, ⟨2026,6,15⟩, "x", 120, ""⟩] none ⟨2026,6,15⟩ =
      (([⟨1, ⟨2026,6,15⟩, "x", 120, ""⟩] : List Expense).map (fun e => e.amount)).sum :=
  summary_sums [⟨1, ⟨2026,6,15⟩, "x", 120, ""⟩] 6 ⟨2026,6,15⟩ (by decide) (by decide)

/-- Claim C7.  For a non-empty category filter, List returns exactly the
records whose category equals the filter under case-sensitive equality, as a
sublist of the store (so in insertion order); records with an empty category
never appear; List with no filter returns the whole store; the empty result
is reported as the distinct no-expenses outcome. -/
theorem list_filter_spec (st : List Expense) (c : String) (hc : c ≠ "") :
    (list_expenses st (some c)).toRows = st.filter (fun e => e.category = c) ∧
    (st.filter (fun e => e.category = c)).Sublist st ∧
    (list_expenses st (some c) = .empty ↔ st.filter (fun e => e.category = c) = []) ∧
    (∀ e ∈ st, e.category = "" → e ∉ (list_expenses st (some c)).toRows) ∧
    (list_expenses st none).toRows = st ∧
    (list_expenses st none = .empty ↔ st = []) := by
  have ht : strTruthy (some c) = true := by
    simp only [strTruthy, ne_eq, bne_iff_ne]
    exact hc
  have hcat : filterByCat st (some c) = st.filter (fun e => e.category = c) := by
    simp [filterByCat, ht]
  refine ⟨?_, List.filter_sublist st, ?_, ?_, ?_, ?_⟩
  · simp only [list_expenses, hcat]
    by_cases he : (st.filter (fun e => e.category = c)).isEmpty
    · rw [if_pos he]
      rw [List.isEmpty_iff] at he
      simp [ListResult.toRows, he]
    · rw [if_neg he]
      rfl
  · simp only [list_expenses, hcat]
    by_cases he : (st.filter (fun e => e.category = c)).isEmpty
    · rw [if_pos he]
      rw [List.isEmpty_iff] at he
      simp [he]
    · rw [if_neg he]
      rw [List.isEmpty_iff] at he
      simp [he]
  · intro e hest hcempty habs
    simp only [list_expenses, hcat] at habs
    by_cases he : (st.filter (fun e => e.category = c)).isEmpty
    · rw [if_pos he] at habs
      simp [ListResult.toRows] at habs
    · rw [if_neg he] at habs
      simp only [ListResult.toRows] at habs
      have := (List.mem_filter.mp habs).2
      simp only [decide_eq_true_eq] at this
      rw [hcempty] at this
      exact (hc this.symm).elim
  · have hnone : filterByCat st none = st := rfl
    simp only [list_expenses, hnone]
    by_cases he : st.isEmpty
    · rw [if_pos he]
      rw [List.isEmpty_iff] at he
      simp [ListResult.toRows, he]
    · rw [if_neg he]
      rfl
  · have hnone : filterByCat st none = st := rfl
    simp only [list_expenses, hnone]
    by_cases he : st.isEmpty
    · rw [if_pos he]
      rw [List.isEmpty_iff] at he
      simp [he]
    · rw [if_neg he]
      rw [List.isEmpty_iff] at he
      simp [he]

/-- Witness for the C7 theorem at a concrete store and the filter "food". -/
theorem list_filter_spec_witness :
    ((list_expenses [⟨1, ⟨2026,6,15⟩, "x", 120, "food"⟩] (some "food")).toRows =
      ([⟨1, ⟨2026,6,15⟩, "x", 120, "food"⟩] : List Expense).filter
        (fun e => e.category = "food")) ∧
    ((list_expenses [⟨1, ⟨2026,6,15⟩, "x", 120, "food"⟩] none).toRows =
      [⟨1, ⟨2026,6,15⟩, "x", 120, "food"⟩]) := by
  have h := list_filter_spec [⟨1, ⟨2026,6,15⟩, "x", 120, "food"⟩] "food" (by decide)
  exact ⟨h.1, h.2.2.2.2.1⟩

/-- Claim C8.  When the filtered set is empty, ExportCSV reports the no-data
notice, writes nothing, and leaves any existing file content untouched; when
it is non-empty, it writes the fixed header row followed by the filtered
records, a sublist of the store in store order. -/
theorem export_csv_spec (st : List Expense) (cat : Option String)
    (prev : Option CsvResult) :
    (filterByCat st cat = [] →
      export_csv st cat = .noData ∧ export_csv_fs prev st cat = prev) ∧
    (filterByCat st cat ≠ [] →
      export_csv st cat =
        .file ["id", "date", "description", "amount", "category"] (filterByCat st cat) ∧
      export_csv_fs prev st cat =
        some (.file ["id", "date", "description", "amount", "category"]
          (filterByCat st cat)) ∧
      (filterByCat st cat).Sublist st) := by
  constructor
  · intro h
    have he : (filterByCat st cat).isEmpty := by simp [h]
    have h1 : export_csv st cat = .noData := by
      simp only [export_csv, if_pos he]
    exact ⟨h1, by simp only [export_csv_fs, h1]⟩
  · intro h
    have he : ¬ (filterByCat st cat).isEmpty := by
      simpa [List.isEmpty_iff] using h
    have h1 : export_csv st cat =
        .file ["id", "date", "description", "amount", "category"] (filterByCat st cat) := by
      simp only [export_csv, if_neg he]
    refine ⟨h1, by simp only [export_csv_fs, h1], ?_⟩
    unfold filterByCat
    by_cases htr : strTruthy cat
    · rw [if_pos htr]
      exact List.filter_sublist st
    · rw [if_neg htr]

/-- Witness for the C8 theorem: an empty export leaves a pre-existing file
as it was, and a non-empty export writes the header and rows. -/
theorem export_csv_spec_witness :
    (export_csv [] none = .noData ∧
      export_csv_fs (some (.file ["id", "date", "description", "amount", "category"]
        [⟨1, ⟨2026,6,15⟩, "x", 120, ""⟩])) [] none =
        some (.file ["id", "date", "description", "amount", "category"]
          [⟨1, ⟨2026,6,15⟩, "x", 120, ""⟩])) ∧
    (export_csv [⟨1, ⟨2026,6,15⟩, "x", 120, ""⟩] none =
      .file ["id", "date", "description", "amount", "category"]
        (filterByCat [⟨1, ⟨2026,6,15⟩, "x", 120, ""⟩] none)) := by
  have h1 := export_csv_spec [] none (some (.file
    ["id", "date", "description", "amount", "category"] [⟨1, ⟨2026,6,15⟩, "x", 120, ""⟩]))
  have h2 := export_csv_spec [⟨1, ⟨2026,6,15⟩, "x", 120, ""⟩] none none
  exact ⟨h1.1 (by decide), (h2.2 (by decide)).1⟩
